import Mathlib

/-!
Verification of the mybase storage engine (src/main.cpp): a single-file
B+-tree-backed table with a pager, a row codec, and insert/scan operations.

The definitions below are shallow embeddings of the C source, translated
function by function. Machine integers are modelled as `Nat` with explicit
`% 2^w` at the places where the C code performs a narrowing conversion.
Page buffers are modelled at two levels:
  * a byte level (`List Nat` / `Nat → Nat`) for the layout constants, the
    row codec and the pager's read path, and
  * a structured level (`Leaf` below) for the B-tree operations, which in
    the source only ever touch the root leaf page through the typed
    accessors (`leaf_node_key`, `leaf_node_num_cells`, ...); a cell is a
    `(key, row)` pair and `num_cells` is the length of the cell list.
`exit(EXIT_FAILURE)` paths are modelled by the `ExecResult.fatal` value.
-/

namespace MyBase

/-! ### Layout constants (transcribed formula by formula from src/main.cpp) -/

def COLUMN_USERNAME_SIZE : Nat := 32
def COLUMN_EMAIL_SIZE : Nat := 255
def TABLE_MAX_PAGES : Nat := 100
def PAGE_SIZE : Nat := 4096

/-- `sizeof(((Row*)0)->id)` = sizeof(uint32_t). -/
def ID_SIZE : Nat := 4

/-- `sizeof(((Row*)0)->username)` = sizeof(char[COLUMN_USERNAME_SIZE + 1]). -/
def USERNAME_SIZE : Nat := COLUMN_USERNAME_SIZE + 1

/-- `sizeof(((Row*)0)->email)` = sizeof(char[COLUMN_EMAIL_SIZE + 1]). -/
def EMAIL_SIZE : Nat := COLUMN_EMAIL_SIZE + 1

def ID_OFFSET : Nat := 0
def USERNAME_OFFSET : Nat := ID_OFFSET + ID_SIZE
def EMAIL_OFFSET : Nat := USERNAME_OFFSET + USERNAME_SIZE
def ROW_SIZE : Nat := ID_SIZE + USERNAME_SIZE + EMAIL_SIZE

def NODE_TYPE_SIZE : Nat := 1
def NODE_TYPE_OFFSET : Nat := 0
def IS_ROOT_SIZE : Nat := 1
def IS_ROOT_OFFSET : Nat := NODE_TYPE_SIZE
def PARENT_POINTER_SIZE : Nat := 4
def PARENT_POINTER_OFFSET : Nat := IS_ROOT_OFFSET + IS_ROOT_SIZE

/-- Transcribed verbatim from the source, which sums `PARENT_POINTER_OFFSET`
(= 2) here rather than `PARENT_POINTER_SIZE` (= 4):
`COMMON_NODE_HEADER_SIZE = NODE_TYPE_SIZE + IS_ROOT_SIZE + PARENT_POINTER_OFFSET`. -/
def COMMON_NODE_HEADER_SIZE : Nat := NODE_TYPE_SIZE + IS_ROOT_SIZE + PARENT_POINTER_OFFSET

def LEAF_NODE_NUM_CELLS_SIZE : Nat := 4
def LEAF_NODE_NUM_CELLS_OFFSET : Nat := COMMON_NODE_HEADER_SIZE
def LEAF_NODE_HEADER_SIZE : Nat := COMMON_NODE_HEADER_SIZE + LEAF_NODE_NUM_CELLS_SIZE

def LEAF_NODE_KEY_SIZE : Nat := 4
def LEAF_NODE_KEY_OFFSET : Nat := 0
def LEAF_NODE_VALUE_SIZE : Nat := ROW_SIZE
def LEAF_NODE_VALUE_OFFSET : Nat := LEAF_NODE_KEY_OFFSET + LEAF_NODE_KEY_SIZE
def LEAF_NODE_CELL_SIZE : Nat := LEAF_NODE_KEY_SIZE + LEAF_NODE_VALUE_SIZE
def LEAF_NODE_SPACE_FOR_CELLS : Nat := PAGE_SIZE - LEAF_NODE_HEADER_SIZE
def LEAF_NODE_MAX_CELLS : Nat := LEAF_NODE_SPACE_FOR_CELLS / LEAF_NODE_CELL_SIZE

def LEAF_NODE_RIGHT_SPLIT_COUNT : Nat := (LEAF_NODE_MAX_CELLS + 1) / 2
def LEAF_NODE_LEFT_SPLIT_COUNT : Nat := (LEAF_NODE_MAX_CELLS + 1) - LEAF_NODE_RIGHT_SPLIT_COUNT

def INTERNAL_NODE_NUM_KEYS_SIZE : Nat := 4
def INTERNAL_NODE_NUM_KEYS_OFFSET : Nat := COMMON_NODE_HEADER_SIZE
def INTERNAL_NODE_RIGHT_CHILD_SIZE : Nat := 4
def INTERNAL_NODE_RIGHT_CHILD_OFFSET : Nat :=
  INTERNAL_NODE_NUM_KEYS_OFFSET + INTERNAL_NODE_NUM_KEYS_SIZE
def INTERNAL_NODE_HEADER_SIZE : Nat :=
  COMMON_NODE_HEADER_SIZE + INTERNAL_NODE_NUM_KEYS_SIZE + INTERNAL_NODE_RIGHT_CHILD_SIZE

def INTERNAL_NODE_KEY_SIZE : Nat := 4
def INTERNAL_NODE_CHILD_SIZE : Nat := 4
def INTERNAL_NODE_CELL_SIZE : Nat := INTERNAL_NODE_CHILD_SIZE + INTERNAL_NODE_KEY_SIZE

/-! ### Byte offsets computed by the node accessors

`leaf_node_cell` returns `node + LEAF_NODE_HEADER_SIZE + cell_num * LEAF_NODE_CELL_SIZE`
(`void*` arithmetic, byte-granular). `internal_node_cell` returns a `uint32_t*` at
`node + INTERNAL_NODE_HEADER_SIZE + cell_num * INTERNAL_NODE_CELL_SIZE`, and
`internal_node_key` computes `internal_node_cell(node, key_num) + INTERNAL_NODE_CHILD_SIZE`
on that `uint32_t*`, so C pointer arithmetic scales the addend by
`sizeof(uint32_t)` = 4 bytes. -/

def leaf_node_cell_off (cell_num : Nat) : Nat :=
  LEAF_NODE_HEADER_SIZE + cell_num * LEAF_NODE_CELL_SIZE

def leaf_node_key_off (cell_num : Nat) : Nat := leaf_node_cell_off cell_num

def leaf_node_value_off (cell_num : Nat) : Nat :=
  leaf_node_cell_off cell_num + LEAF_NODE_KEY_SIZE

def internal_node_cell_off (cell_num : Nat) : Nat :=
  INTERNAL_NODE_HEADER_SIZE + cell_num * INTERNAL_NODE_CELL_SIZE

def internal_node_key_off (key_num : Nat) : Nat :=
  internal_node_cell_off key_num + INTERNAL_NODE_CHILD_SIZE * 4

/-! ### Row codec

`Row` holds `id` as a `Nat` (a `uint32_t` in the source) and the two char
arrays as byte lists. `serialize_row` memcpys the three fields back to back
at `ID_OFFSET`, `USERNAME_OFFSET`, `EMAIL_OFFSET`; the integer is written
little-endian (x86 memcpy of a `uint32_t`). -/

structure Row where
  id : Nat
  username : List Nat
  email : List Nat
deriving DecidableEq

instance : Inhabited Row := ⟨⟨0, [], []⟩⟩

/-- A row as the statement preparer hands it to the executor: id fits in a
`uint32_t`, the char arrays have their declared sizes, hold bytes, and are
null-terminated inside their fields. -/
def Row.Valid (r : Row) : Prop :=
  r.id < 4294967296 ∧
  r.username.length = USERNAME_SIZE ∧ r.email.length = EMAIL_SIZE ∧
  (∀ b ∈ r.username, b < 256) ∧ (∀ b ∈ r.email, b < 256) ∧
  0 ∈ r.username ∧ 0 ∈ r.email

/-- The four bytes `memcpy(destination + ID_OFFSET, &(source->id), ID_SIZE)`
writes, little-endian. -/
def serialize_id (id : Nat) : List Nat :=
  [id % 256, id / 256 % 256, id / 65536 % 256, id / 16777216 % 256]

def serialize_row (r : Row) : List Nat :=
  serialize_id r.id ++ r.username ++ r.email

def deserialize_row (b : List Nat) : Row :=
  { id := b.getD 0 0 + 256 * b.getD 1 0 + 65536 * b.getD 2 0 + 16777216 * b.getD 3 0
    username := (b.drop USERNAME_OFFSET).take USERNAME_SIZE
    email := (b.drop EMAIL_OFFSET).take EMAIL_SIZE }

/-! ### Pager: get_page

Two aspects of `get_page` are modelled at the byte level.

The bounds guard is `if (page_num > TABLE_MAX_PAGES) exit(EXIT_FAILURE)`;
when the guard does not fire, the function immediately indexes
`pager->pages[page_num]`, an array of `TABLE_MAX_PAGES` slots. -/

def get_page_guard_aborts (page_num : Nat) : Bool :=
  decide (TABLE_MAX_PAGES < page_num)

/-- `num_pages` as recomputed inside the cache-miss branch of `get_page`:
`file_length / PAGE_SIZE`, plus one when `file_length % PAGE_SIZE` is nonzero. -/
def get_page_read_limit (file_length : Nat) : Nat :=
  let num_pages := file_length / PAGE_SIZE
  if file_length % PAGE_SIZE = 0 then num_pages else num_pages + 1

/-- The buffer the cache-miss branch of `get_page` installs.
`malloc(PAGE_SIZE)` yields a buffer of indeterminate contents, modelled by
the byte function `mallocContents`; when `page_num <= num_pages` the code
`read`s from offset `page_num * PAGE_SIZE`, which overwrites byte `i` with
the file's byte whenever that offset lies inside the file and leaves the
malloc contents in place past end-of-file (a short `read` stops at EOF).
`file` is the backing file as a byte list. -/
def get_page_miss_buffer (file : List Nat) (mallocContents : Nat → Nat)
    (page_num : Nat) : Nat → Nat :=
  if page_num ≤ get_page_read_limit file.length then
    fun i =>
      if page_num * PAGE_SIZE + i < file.length then
        file.getD (page_num * PAGE_SIZE + i) 0
      else
        mallocContents i
  else
    mallocContents

/-! ### The root leaf and the tree operations

For every non-aborting execution path in the source, the tree is the single
leaf at page 0 (`table_find` exits on an internal root; a split of a
non-root leaf exits; and, as proved below, `create_new_root` is never
reached from a fresh database). `Leaf` is that page viewed through the
typed accessors. -/

structure Leaf where
  is_root : Bool
  cells : List (Nat × Row)
deriving DecidableEq

/-- `*leaf_node_key(node, i)`: the key `uint32_t` of cell `i`. Reads beyond
`num_cells` never happen on the modelled paths. -/
def leaf_node_key (st : Leaf) (i : Nat) : Nat :=
  (st.cells.getD i default).1

inductive ExecuteResult
  | success
  | duplicate_key
  | table_full
deriving DecidableEq

/-- The `printf` + `exit(EXIT_FAILURE)` sites reachable from the modelled
operations. -/
inductive Fatality
  /-- "Need to implement updating parent after split." -/
  | parent_split_unimplemented
deriving DecidableEq

/-- Outcome of `execute_insert`: a result code together with the root leaf
after the call, a fatal exit, or entry into `create_new_root` (see
`leaf_node_split_and_insert` below; this last outcome is unreachable from a
fresh database). -/
inductive ExecResult
  | ok (r : ExecuteResult) (st : Leaf)
  | fatal (f : Fatality)
  | root_split (left_cells : List (Nat × Row)) (moved : Nat × (Nat × Row))
deriving DecidableEq

/-- The binary-search loop of `leaf_node_find`:
`while (one_past_max_index != min_index) { ... }`. Each iteration strictly
shrinks `one_past_max_index - min_index`, so running the loop with
`fuel = one_past_max_index - min_index` (or more) reproduces it exactly;
when fuel runs out the interval is empty and the loop would exit with
`min_index` anyway. -/
def leaf_node_find_loop (st : Leaf) (key : Nat) :
    Nat → Nat → Nat → Nat
  | 0, min_index, _ => min_index
  | fuel + 1, min_index, one_past_max_index =>
    if one_past_max_index = min_index then min_index
    else
      let index := (min_index + one_past_max_index) / 2
      let key_at_index := leaf_node_key st index
      if key = key_at_index then index
      else if key < key_at_index then
        leaf_node_find_loop st key fuel min_index index
      else
        leaf_node_find_loop st key fuel (index + 1) one_past_max_index

/-- `leaf_node_find`: binary search over `[0, num_cells)`; returns the
`cell_num` of the produced cursor. -/
def leaf_node_find (st : Leaf) (key : Nat) : Nat :=
  leaf_node_find_loop st key st.cells.length 0 st.cells.length

/-- `table_find`: the root of every modelled state is a leaf, so this is
`leaf_node_find` on page 0 (the internal-node branch of the source exits
fatally and is not reachable here). -/
def table_find (st : Leaf) (key : Nat) : Nat :=
  leaf_node_find st key

/-- `leaf_node_split_and_insert`. The source's redistribution loop is
`for (uint32_t i = LEAF_NODE_MAX_CELLS; i >= 0; i--) { ... }`, and the loop
body itself already ends the call on its first iteration (`i = 13`): after
writing one cell and setting both `num_cells` fields it executes
`if (is_node_root(old_node)) return create_new_root(...); else exit;`.
So only the `i = LEAF_NODE_MAX_CELLS` iteration is ever executed.
Two further remarks on that iteration:
  * the destination test reads `i >= LEAF_NODE_SPLIT_COUNT`, an identifier
    declared nowhere in the file; per spec §4.4 the threshold is
    `LEAF_NODE_LEFT_SPLIT_COUNT`, and any value ≤ 13 sends `i = 13` to the
    new (right) node, so the choice does not affect the outcome;
  * `serialize_row(value, destination)` writes the row at the cell base
    (the key slot), and the root branch calls
    `create_new_root(cursor->value, new_page_num)` where `Cursor` has no
    member `value` — code that does not compile. The `root_split` value
    records what the iteration computed: the old node truncated to its new
    `num_cells = LEAF_NODE_LEFT_SPLIT_COUNT`, plus the index inside the new
    node and the cell content placed there. -/
def leaf_node_split_and_insert (st : Leaf) (cell_num key : Nat) (value : Row) :
    ExecResult :=
  let i := LEAF_NODE_MAX_CELLS
  let index_within_node := i % LEAF_NODE_LEFT_SPLIT_COUNT
  let written : Nat × Row :=
    if i = cell_num then (key, value)
    else if cell_num < i then st.cells.getD (i - 1) default
    else st.cells.getD i default
  if st.is_root then
    ExecResult.root_split (st.cells.take LEAF_NODE_LEFT_SPLIT_COUNT)
      (index_within_node, written)
  else
    ExecResult.fatal Fatality.parent_split_unimplemented

/-- `leaf_node_insert`: if the leaf is full, split; otherwise shift the
cells at `[cell_num, num_cells)` one slot right, write `(key, value)` at
`cell_num`, and bump `num_cells` — i.e. insert the cell at index
`cell_num`. -/
def leaf_node_insert (st : Leaf) (cell_num key : Nat) (value : Row) :
    ExecResult :=
  let num_cells := st.cells.length
  if LEAF_NODE_MAX_CELLS ≤ num_cells then
    leaf_node_split_and_insert st cell_num key value
  else
    ExecResult.ok ExecuteResult.success
      { st with cells := st.cells.take cell_num ++ (key, value) :: st.cells.drop cell_num }

/-- `execute_insert`. Note the narrowing declaration in the source:
`uint16_t key_to_insert = row_to_insert->id;` — the search key and the
duplicate-key comparison use `id % 2^16`, while `leaf_node_insert` is then
called with the untruncated `row_to_insert->id`. -/
def execute_insert (st : Leaf) (row : Row) : ExecResult :=
  let num_cells := st.cells.length
  let key_to_insert := row.id % 65536
  let cell_num := table_find st key_to_insert
  if cell_num < num_cells then
    if leaf_node_key st cell_num = key_to_insert then
      ExecResult.ok ExecuteResult.duplicate_key st
    else
      leaf_node_insert st cell_num row.id row
  else
    leaf_node_insert st cell_num row.id row

/-- A cursor as produced by `table_start` and threaded through
`execute_select`: `(cell_num, end_of_table)` on the root leaf. -/
structure Cursor where
  cell_num : Nat
  end_of_table : Bool
deriving DecidableEq

/-- `table_start`: cell 0; `end_of_table = (num_cells == 0)`. -/
def table_start (st : Leaf) : Cursor :=
  ⟨0, decide (st.cells.length = 0)⟩

/-- `cursor_value` followed by `deserialize_row`: the row of the current cell. -/
def cursor_value_row (st : Leaf) (c : Cursor) : Row :=
  (st.cells.getD c.cell_num default).2

/-- `cursor_advance`: increment `cell_num`; once it reaches `num_cells`,
set `end_of_table`. -/
def cursor_advance (st : Leaf) (c : Cursor) : Cursor :=
  let n := c.cell_num + 1
  ⟨n, if st.cells.length ≤ n then true else c.end_of_table⟩

/-- The `while (!(cursor->end_of_table))` loop of `execute_select`,
collecting the printed rows in order. The loop runs `num_cells` times plus
a final check, so `num_cells + 1` fuel reproduces it exactly. -/
def execute_select_loop (st : Leaf) : Nat → Cursor → List Row
  | 0, _ => []
  | fuel + 1, c =>
    if c.end_of_table then []
    else cursor_value_row st c :: execute_select_loop st fuel (cursor_advance st c)

/-- `execute_select`: full scan from `table_start`; returns the rows in the
order they are printed. -/
def execute_select (st : Leaf) : List Row :=
  execute_select_loop st (st.cells.length + 1) (table_start st)

/-- `db_open` on a zero-length (fresh) file: page 0 is fetched and
`initialize_leaf_node` sets `node_type = leaf`, `is_root = false` (sic:
`set_node_root(node, false)` — `db_open` never sets it back to true) and
`num_cells = 0`. -/
def db_open_fresh : Leaf :=
  { is_root := false, cells := [] }

/-- Insert the rows of a list in order, starting from `st`; `none` when an
insert does not return `EXECUTE_SUCCESS` (duplicate key or a fatal exit). -/
def insertAll (st : Leaf) : List Row → Option Leaf
  | [] => some st
  | r :: rs =>
    match execute_insert st r with
    | ExecResult.ok ExecuteResult.success st' => insertAll st' rs
    | _ => none

/-- States reachable from `db_open` on a fresh file by `execute_insert`
calls that return a result code (selects do not change state). -/
inductive Reachable : Leaf → Prop
  | open_fresh : Reachable db_open_fresh
  | insert (st st' : Leaf) (row : Row) (r : ExecuteResult) :
      Reachable st → execute_insert st row = ExecResult.ok r st' → Reachable st'

/-- Reachability restricted to inserts whose ids fit in 16 bits, so that
the `uint16_t` truncation in `execute_insert` is the identity. -/
inductive ReachableLT : Leaf → Prop
  | open_fresh : ReachableLT db_open_fresh
  | insert (st st' : Leaf) (row : Row) (r : ExecuteResult) :
      ReachableLT st → row.id < 65536 →
      execute_insert st row = ExecResult.ok r st' → ReachableLT st'

/-! ### Statement preparation (`prepare_insert`) and C `atoi` -/

/-- C `isspace` on a byte: space or one of `\t \n \v \f \r` (9–13). -/
def isSpaceByte (c : Nat) : Bool :=
  decide (c = 32 ∨ (9 ≤ c ∧ c ≤ 13))

/-- C `isdigit` on a byte. -/
def isDigitByte (c : Nat) : Bool :=
  decide (48 ≤ c ∧ c ≤ 57)

/-- Digit-accumulation phase of C `atoi`: consume leading digits. -/
def atoiLoop : List Nat → Nat → Nat
  | [], acc => acc
  | c :: rest, acc =>
    if isDigitByte c then atoiLoop rest (acc * 10 + (c - 48)) else acc

/-- C `atoi` on a byte string (no overflow modelled; the claims touched by
it concern tokens with no digits, where the result is 0): skip whitespace,
an optional sign (45 = minus, 43 = plus), then accumulate digits; a token
with no leading digits yields 0. -/
def atoi (s : List Nat) : Int :=
  match s.dropWhile isSpaceByte with
  | [] => 0
  | c :: rest =>
    if c = 45 then -(atoiLoop rest 0 : Int)
    else if c = 43 then (atoiLoop rest 0 : Int)
    else (atoiLoop (c :: rest) 0 : Int)

inductive PrepareResult
  /-- `PREPARE_SUCCESS`, carrying `statement->row_to_insert`'s id and the
  two strings `strcpy`ed into it. -/
  | success (id : Nat) (username email : List Nat)
  | negative_id
  | string_too_long
  /-- `PREPARE_SYNTAX_ERROR` in the source. -/
  | bad_statement
deriving DecidableEq

/-- `prepare_insert`: the three `strtok` results (`none` models `NULL`);
`atoi` the id token, reject `id < 0`, reject over-long strings, else store
`(uint32_t)id` and the strings. -/
def prepare_insert (id_string username email : Option (List Nat)) :
    PrepareResult :=
  match id_string, username, email with
  | some ids, some un, some em =>
    let id := atoi ids
    if id < 0 then PrepareResult.negative_id
    else if COLUMN_USERNAME_SIZE < un.length then PrepareResult.string_too_long
    else if COLUMN_EMAIL_SIZE < em.length then PrepareResult.string_too_long
    else PrepareResult.success id.toNat un em
  | _, _, _ => PrepareResult.bad_statement

/-- A token that C `atoi` finds no number in: after leading whitespace it
is empty, or starts with a sign followed by no digit, or starts with a
non-sign non-digit byte. -/
def nonNumericToken (s : List Nat) : Bool :=
  match s.dropWhile isSpaceByte with
  | [] => true
  | c :: rest =>
    if c = 45 ∨ c = 43 then
      match rest with
      | [] => true
      | d :: _ => ! isDigitByte d
    else ! isDigitByte c

/-- Rows used in concrete runs: payload strings empty (the tree operations
never inspect them). -/
def mkRow (n : Nat) : Row := ⟨n, [], []⟩

instance (r : Row) : Decidable r.Valid := by
  unfold Row.Valid
  exact inferInstance

/-- The scenario of spec P5 minus its last insert: rows with ids 1..13 in
ascending order. -/
def c2Rows : List Row := (List.range 13).map (fun i => mkRow (i + 1))

/-- A concrete valid row: id 7, username "a", email "b", zero-padded to the
field widths. -/
def c6Row : Row := ⟨7, 97 :: List.replicate 32 0, 98 :: List.replicate 255 0⟩

/-- After inserting the rows of `done` (ids below 2^16, in some order) into
a fresh database: the root leaf is still marked non-root, its cells are
strictly sorted by key, every cell's key is its row's id and fits in 16
bits, and the cells are a permutation of `done`'s `(id, row)` pairs. -/
def GoodState (st : Leaf) (done : List Row) : Prop :=
  st.is_root = false ∧
  st.cells.Pairwise (fun a b => a.1 < b.1) ∧
  (∀ c ∈ st.cells, c.1 = c.2.id ∧ c.1 < 65536) ∧
  st.cells.Perm (done.map (fun r => (r.id, r)))

/-! ### Lemmas about the binary search of `leaf_node_find` -/

/-- Keys of a strictly key-sorted leaf increase with the cell index. -/
theorem leaf_node_key_lt (st : Leaf)
    (hs : st.cells.Pairwise (fun a b => a.1 < b.1))
    {i j : Nat} (hij : i < j) (hj : j < st.cells.length) :
    leaf_node_key st i < leaf_node_key st j := by
  have hi : i < st.cells.length := lt_trans hij hj
  simp only [leaf_node_key, List.getD_eq_getElem _ _ hi, List.getD_eq_getElem _ _ hj]
  exact List.pairwise_iff_getElem.mp hs i j hi hj hij

/-- Range of the binary-search loop's result: it stays inside `[lo, hi]`. -/
theorem leaf_node_find_loop_le (st : Leaf) (key : Nat) :
    ∀ fuel lo hi, lo ≤ hi →
      lo ≤ leaf_node_find_loop st key fuel lo hi ∧
      leaf_node_find_loop st key fuel lo hi ≤ hi := by
  intro fuel
  induction fuel with
  | zero => intro lo hi h; simp [leaf_node_find_loop, h]
  | succ fuel ih =>
    intro lo hi h
    simp only [leaf_node_find_loop]
    split
    · exact ⟨Nat.le_refl _, h⟩
    · next hne =>
      have hlt : lo < hi := lt_of_le_of_ne h (fun hc => hne hc.symm)
      have hidx : lo ≤ (lo + hi) / 2 ∧ (lo + hi) / 2 < hi := by omega
      split
      · exact ⟨hidx.1, Nat.le_of_lt hidx.2⟩
      · split
        · have := ih lo ((lo + hi) / 2) hidx.1
          exact ⟨this.1, Nat.le_trans this.2 (Nat.le_of_lt hidx.2)⟩
        · have := ih ((lo + hi) / 2 + 1) hi hidx.2
          exact ⟨Nat.le_trans (Nat.le_of_lt (Nat.lt_succ_of_le hidx.1)) this.1, this.2⟩

/-- Characterization of the binary-search loop on a sorted leaf: starting
from an interval `[lo, hi)` whose outside is already classified against
`key`, the result `p` separates the keys below `key` from those at or
above it. This is exactly what the cursor position is used for: `p` is the
insertion point, and when `key` is present it is `key`'s cell. -/
theorem leaf_node_find_loop_spec (st : Leaf) (key : Nat)
    (hs : st.cells.Pairwise (fun a b => a.1 < b.1)) :
    ∀ fuel lo hi, hi - lo ≤ fuel → lo ≤ hi → hi ≤ st.cells.length →
      (∀ i, i < lo → leaf_node_key st i < key) →
      (∀ i, hi ≤ i → i < st.cells.length → key < leaf_node_key st i) →
      (∀ i, i < leaf_node_find_loop st key fuel lo hi → leaf_node_key st i < key) ∧
      (∀ i, leaf_node_find_loop st key fuel lo hi ≤ i → i < st.cells.length →
        key ≤ leaf_node_key st i) ∧
      leaf_node_find_loop st key fuel lo hi ≤ st.cells.length := by
  intro fuel
  induction fuel with
  | zero =>
    intro lo hi hfuel hle hhi hbelow habove
    have : hi = lo := by omega
    subst this
    simp only [leaf_node_find_loop]
    exact ⟨hbelow, fun i h1 h2 => Nat.le_of_lt (habove i h1 h2), hhi⟩
  | succ fuel ih =>
    intro lo hi hfuel hle hhi hbelow habove
    simp only [leaf_node_find_loop]
    split
    · next heq =>
      subst heq
      exact ⟨hbelow, fun i h1 h2 => Nat.le_of_lt (habove i h1 h2), hhi⟩
    · next hne =>
      have hlt : lo < hi := lt_of_le_of_ne hle (fun hc => hne hc.symm)
      set index := (lo + hi) / 2 with hidx_def
      have hidx : lo ≤ index ∧ index < hi := by omega
      have hindex_len : index < st.cells.length := lt_of_lt_of_le hidx.2 hhi
      split
      · next hkey =>
        refine ⟨fun i hi' => ?_, fun i h1 h2 => ?_, Nat.le_of_lt hindex_len⟩
        · exact hkey ▸ leaf_node_key_lt st hs hi' hindex_len
        · rcases Nat.lt_or_ge index i with h | h
          · exact Nat.le_of_lt (hkey ▸ leaf_node_key_lt st hs h h2)
          · have : index = i := Nat.le_antisymm h1 h
            exact this ▸ Nat.le_of_eq hkey
      · next hkeyne =>
        split
        · next hklt =>
          refine ih lo index (by omega) hidx.1 (Nat.le_of_lt hindex_len) hbelow ?_
          intro i h1 h2
          rcases Nat.lt_or_ge index i with h | h
          · exact lt_trans hklt (leaf_node_key_lt st hs h h2)
          · have : index = i := Nat.le_antisymm h1 h
            exact this ▸ hklt
        · next hkge =>
          have hkgt : leaf_node_key st index < key :=
            lt_of_le_of_ne (Nat.le_of_not_lt hkge) (fun hc => hkeyne hc.symm)
          refine ih (index + 1) hi (by omega) hidx.2 hhi ?_ habove
          intro i h1
          rcases Nat.lt_or_ge i index with h | h
          · exact lt_trans (leaf_node_key_lt st hs h hindex_len) hkgt
          · have : i = index := by omega
            exact this ▸ hkgt

/-- `leaf_node_find` on a sorted leaf: everything left of the cursor is
below `key`, everything at or right of it is at or above `key`. -/
theorem leaf_node_find_spec (st : Leaf) (key : Nat)
    (hs : st.cells.Pairwise (fun a b => a.1 < b.1)) :
    (∀ i, i < leaf_node_find st key → leaf_node_key st i < key) ∧
    (∀ i, leaf_node_find st key ≤ i → i < st.cells.length →
      key ≤ leaf_node_key st i) ∧
    leaf_node_find st key ≤ st.cells.length := by
  exact leaf_node_find_loop_spec st key hs st.cells.length 0 st.cells.length
    (by omega) (Nat.zero_le _) (Nat.le_refl _)
    (fun i h => absurd h (Nat.not_lt_zero i))
    (fun i h1 h2 => absurd h2 (Nat.not_lt.mpr h1))

/-- When `key` is one of the stored keys of a sorted leaf, the cursor of
`leaf_node_find` lands on its cell. -/
theorem leaf_node_find_mem (st : Leaf) (key : Nat)
    (hs : st.cells.Pairwise (fun a b => a.1 < b.1))
    (h : key ∈ st.cells.map Prod.fst) :
    leaf_node_find st key < st.cells.length ∧
    leaf_node_key st (leaf_node_find st key) = key := by
  obtain ⟨c, hc, hck⟩ := List.mem_map.mp h
  obtain ⟨j, hj, hcj⟩ := List.mem_iff_getElem.mp hc
  have hkj : leaf_node_key st j = key := by
    simp only [leaf_node_key, List.getD_eq_getElem _ _ hj, hcj, hck]
  obtain ⟨hlt, hge, hlen⟩ := leaf_node_find_spec st key hs
  have hpj : leaf_node_find st key ≤ j := by
    by_contra hcon
    exact absurd hkj (Nat.ne_of_lt (hlt j (Nat.lt_of_not_le hcon)))
  have hplen : leaf_node_find st key < st.cells.length := lt_of_le_of_lt hpj hj
  refine ⟨hplen, Nat.le_antisymm ?_ (hge _ (Nat.le_refl _) hplen)⟩
  rcases Nat.lt_or_ge (leaf_node_find st key) j with h' | h'
  · have hlt2 := leaf_node_key_lt st hs h' hj
    rw [hkj] at hlt2
    exact Nat.le_of_lt hlt2
  · have heq : leaf_node_find st key = j := Nat.le_antisymm hpj h'
    rw [heq, hkj]

/-- When `key` is absent from a sorted leaf, every key at or right of the
cursor is strictly above `key`. -/
theorem leaf_node_find_not_mem (st : Leaf) (key : Nat)
    (hs : st.cells.Pairwise (fun a b => a.1 < b.1))
    (h : key ∉ st.cells.map Prod.fst) :
    ∀ i, leaf_node_find st key ≤ i → i < st.cells.length →
      key < leaf_node_key st i := by
  intro i h1 h2
  obtain ⟨_, hge, _⟩ := leaf_node_find_spec st key hs
  refine lt_of_le_of_ne (hge i h1 h2) (fun hc => h ?_)
  refine List.mem_map.mpr ⟨st.cells[i], List.getElem_mem _, ?_⟩
  have hkey : leaf_node_key st i = st.cells[i].1 := by
    simp only [leaf_node_key, List.getD_eq_getElem _ _ h2]
  rw [← hkey]
  exact hc.symm

/-! ### The full scan returns the cells in index order -/

theorem execute_select_loop_eq (st : Leaf) :
    ∀ fuel i, st.cells.length - i < fuel →
      execute_select_loop st fuel ⟨i, decide (st.cells.length ≤ i)⟩ =
        (st.cells.drop i).map Prod.snd := by
  intro fuel
  induction fuel with
  | zero => intro i h; omega
  | succ fuel ih =>
    intro i h
    by_cases hi : st.cells.length ≤ i
    · simp [execute_select_loop, hi, List.drop_eq_nil_of_le hi]
    · have hi' : i < st.cells.length := Nat.lt_of_not_le hi
      have hflag : (decide (st.cells.length ≤ i)) = false := by simp [hi]
      rw [hflag]
      have hadv : cursor_advance st ⟨i, false⟩ =
          ⟨i + 1, decide (st.cells.length ≤ i + 1)⟩ := by
        simp only [cursor_advance]
        by_cases h1 : st.cells.length ≤ i + 1 <;> simp [h1]
      simp only [execute_select_loop, Bool.false_eq_true, if_false, hadv]
      rw [ih (i + 1) (by omega)]
      rw [List.drop_eq_getElem_cons hi']
      simp only [List.map_cons, List.getD_eq_getElem _ _ hi', cursor_value_row]

/-- `execute_select` prints exactly the rows of the root leaf's cells, in
cell order. -/
theorem execute_select_eq (st : Leaf) :
    execute_select st = st.cells.map Prod.snd := by
  have h0 : (decide (st.cells.length = 0)) = (decide (st.cells.length ≤ 0)) := by
    simp [Nat.le_zero]
  simp only [execute_select, table_start, h0]
  simpa using execute_select_loop_eq st (st.cells.length + 1) 0 (by omega)

/-! ### Outcomes of `execute_insert` -/

/-- The branch structure of `execute_insert` in one equation: either the
cursor hits an equal (truncated) key and the duplicate is reported with
the state untouched, or control falls through to `leaf_node_insert` with
the untruncated id. -/
theorem execute_insert_eq (st : Leaf) (row : Row) :
    execute_insert st row =
      if table_find st (row.id % 65536) < st.cells.length ∧
          leaf_node_key st (table_find st (row.id % 65536)) = row.id % 65536 then
        ExecResult.ok ExecuteResult.duplicate_key st
      else
        leaf_node_insert st (table_find st (row.id % 65536)) row.id row := by
  by_cases h1 : table_find st (row.id % 65536) < st.cells.length
  · by_cases h2 : leaf_node_key st (table_find st (row.id % 65536)) = row.id % 65536 <;>
      simp [execute_insert, h1, h2]
  · simp [execute_insert, h1]

/-- `leaf_node_insert` never reports a duplicate: when it returns a result
code at all, that code is `EXECUTE_SUCCESS`. -/
theorem leaf_node_insert_ok (st : Leaf) (cell_num key : Nat) (value : Row) :
    ∀ r st', leaf_node_insert st cell_num key value = ExecResult.ok r st' →
      r = ExecuteResult.success ∧
      st' = { st with
              cells := st.cells.take cell_num ++ (key, value) :: st.cells.drop cell_num } := by
  intro r st'
  simp only [leaf_node_insert, leaf_node_split_and_insert]
  split
  · split <;> intro h <;> cases h
  · intro h
    cases h
    exact ⟨rfl, rfl⟩

/-- `leaf_node_insert` on a non-full leaf inserts the cell at `cell_num`. -/
theorem leaf_node_insert_nonfull (st : Leaf) (cell_num key : Nat) (value : Row)
    (h : st.cells.length < LEAF_NODE_MAX_CELLS) :
    leaf_node_insert st cell_num key value = ExecResult.ok ExecuteResult.success
      { st with
        cells := st.cells.take cell_num ++ (key, value) :: st.cells.drop cell_num } := by
  simp only [leaf_node_insert]
  rw [if_neg (Nat.not_le.mpr h)]

/-! ### Inserting at the cursor of `leaf_node_find` preserves sortedness -/

/-- Splicing a fresh cell in at the binary-search cursor keeps the leaf
strictly sorted by key. -/
theorem insert_cell_sorted (st : Leaf) (key : Nat) (row : Row)
    (hs : st.cells.Pairwise (fun a b => a.1 < b.1))
    (hnot : key ∉ st.cells.map Prod.fst) :
    (st.cells.take (leaf_node_find st key) ++
      (key, row) :: st.cells.drop (leaf_node_find st key)).Pairwise
        (fun a b => a.1 < b.1) := by
  obtain ⟨hlt, _, _⟩ := leaf_node_find_spec st key hs
  have hgt := leaf_node_find_not_mem st key hs hnot
  set p := leaf_node_find st key with hp
  have htake : ∀ a ∈ st.cells.take p, a.1 < key := by
    intro a ha
    obtain ⟨i, hi, hia⟩ := List.mem_iff_getElem.mp ha
    rw [List.length_take, lt_min_iff] at hi
    have hkey := hlt i hi.1
    simp only [leaf_node_key, List.getD_eq_getElem _ _ hi.2] at hkey
    rw [← hia, List.getElem_take]
    exact hkey
  have hdrop : ∀ b ∈ st.cells.drop p, key < b.1 := by
    intro b hb
    obtain ⟨j, hj, hjb⟩ := List.mem_iff_getElem.mp hb
    rw [List.length_drop] at hj
    have hj' : p + j < st.cells.length := by omega
    have hkey := hgt (p + j) (Nat.le_add_right p j) hj'
    simp only [leaf_node_key, List.getD_eq_getElem _ _ hj'] at hkey
    rw [← hjb, List.getElem_drop]
    exact hkey
  refine List.pairwise_append.mpr
    ⟨List.Pairwise.sublist (List.take_sublist _ _) hs, ?_, ?_⟩
  · exact List.pairwise_cons.mpr
      ⟨hdrop, List.Pairwise.sublist (List.drop_sublist _ _) hs⟩
  · intro a ha b hb
    rcases List.mem_cons.mp hb with rfl | hb'
    · exact htake a ha
    · exact lt_trans (htake a ha) (hdrop b hb')

/-- Splicing a cell in at any position is, up to permutation, consing it. -/
theorem insert_cell_perm (st : Leaf) (p : Nat) (c : Nat × Row) :
    (st.cells.take p ++ c :: st.cells.drop p).Perm (c :: st.cells) := by
  have h := @List.perm_middle _ c (st.cells.take p) (st.cells.drop p)
  rwa [List.take_append_drop] at h

/-! ### The invariant preserved by successful inserts from a fresh database -/

theorem execute_insert_step (st : Leaf) (done : List Row) (row : Row)
    (hG : GoodState st done) (hid : row.id < 65536)
    (hnot : row.id ∉ done.map Row.id)
    (hlen : st.cells.length < LEAF_NODE_MAX_CELLS) :
    ∃ st', execute_insert st row = ExecResult.ok ExecuteResult.success st' ∧
      GoodState st' (done ++ [row]) := by
  obtain ⟨hroot, hsort, hkeys, hperm⟩ := hG
  have hkeysperm : (st.cells.map Prod.fst).Perm (done.map Row.id) := by
    have hcomp : (Prod.fst ∘ fun r : Row => (r.id, r)) = Row.id := rfl
    have h := hperm.map Prod.fst
    rwa [List.map_map, hcomp] at h
  have hnotin : row.id ∉ st.cells.map Prod.fst :=
    fun hmem => hnot (hkeysperm.mem_iff.mp hmem)
  have hmod : row.id % 65536 = row.id := Nat.mod_eq_of_lt hid
  have hdup : ¬(table_find st (row.id % 65536) < st.cells.length ∧
      leaf_node_key st (table_find st (row.id % 65536)) = row.id % 65536) := by
    rw [hmod]
    rintro ⟨h1, h2⟩
    have hgt := leaf_node_find_not_mem st row.id hsort hnotin
      (table_find st row.id) (Nat.le_refl _) h1
    omega
  rw [execute_insert_eq, if_neg hdup, hmod, leaf_node_insert_nonfull _ _ _ _ hlen]
  refine ⟨_, rfl, hroot, insert_cell_sorted st row.id row hsort hnotin, ?_, ?_⟩
  · intro c hc
    have hmem := (insert_cell_perm st (table_find st (row.id)) (row.id, row)).mem_iff.mp hc
    rcases List.mem_cons.mp hmem with rfl | hcc
    · exact ⟨rfl, hid⟩
    · exact hkeys c hcc
  · refine (insert_cell_perm st (table_find st row.id) (row.id, row)).trans ?_
    refine (hperm.cons (row.id, row)).trans ?_
    rw [List.map_append]
    simpa using (List.perm_append_singleton ((row.id, row) : Nat × Row)
      (done.map fun r => (r.id, r))).symm

theorem insertAll_good : ∀ (rs : List Row) (st : Leaf) (done : List Row),
    GoodState st done →
    done.length + rs.length ≤ LEAF_NODE_MAX_CELLS →
    ((done ++ rs).map Row.id).Nodup →
    (∀ r ∈ rs, r.id < 65536) →
    ∃ st', insertAll st rs = some st' ∧ GoodState st' (done ++ rs) := by
  intro rs
  induction rs with
  | nil =>
    intro st done hG _ _ _
    exact ⟨st, rfl, by simpa using hG⟩
  | cons r rs ih =>
    intro st done hG hlen hnodup hlt
    have hidlt : r.id < 65536 := hlt r (List.mem_cons_self r rs)
    have hnot : r.id ∉ done.map Row.id := by
      rw [List.map_append, List.nodup_append] at hnodup
      intro hmem
      exact hnodup.2.2 hmem (by simp)
    have hcells_len : st.cells.length < LEAF_NODE_MAX_CELLS := by
      have hl := hG.2.2.2.length_eq
      rw [List.length_map] at hl
      simp only [List.length_cons] at hlen
      omega
    obtain ⟨st', hstep, hG'⟩ := execute_insert_step st done r hG hidlt hnot hcells_len
    have hlen' : (done ++ [r]).length + rs.length ≤ LEAF_NODE_MAX_CELLS := by
      simp only [List.length_append, List.length_cons, List.length_nil] at hlen ⊢
      omega
    have hassoc : (done ++ [r]) ++ rs = done ++ r :: rs := by simp
    obtain ⟨st'', hrun, hG''⟩ := ih st' (done ++ [r]) hG' hlen'
      (by rwa [hassoc]) (fun x hx => hlt x (List.mem_cons_of_mem r hx))
    rw [hassoc] at hG''
    refine ⟨st'', ?_, hG''⟩
    simp only [insertAll, hstep]
    exact hrun

/-! ### Reachability invariants -/

/-- A result-returning `execute_insert` never changes the `is_root` byte of
page 0 (the duplicate path returns the state untouched; the non-full insert
only rewrites cells; the split paths do not return a result code). -/
theorem execute_insert_is_root (st st' : Leaf) (row : Row) (r : ExecuteResult)
    (h : execute_insert st row = ExecResult.ok r st') :
    st'.is_root = st.is_root := by
  rw [execute_insert_eq] at h
  split at h
  · cases h; rfl
  · obtain ⟨_, h2⟩ := leaf_node_insert_ok _ _ _ _ _ _ h
    rw [h2]

/-- In states reachable with 16-bit ids, the leaf stays strictly sorted and
all stored keys stay below 2^16. -/
theorem reachableLT_inv (st : Leaf) (h : ReachableLT st) :
    st.cells.Pairwise (fun a b => a.1 < b.1) ∧ ∀ c ∈ st.cells, c.1 < 65536 := by
  induction h with
  | open_fresh => exact ⟨List.Pairwise.nil, by simp [db_open_fresh]⟩
  | insert st st' row r _ hid heq ih =>
    obtain ⟨hsort, hlt⟩ := ih
    have hmod : row.id % 65536 = row.id := Nat.mod_eq_of_lt hid
    rw [execute_insert_eq, hmod] at heq
    split at heq
    · cases heq; exact ⟨hsort, hlt⟩
    · next hdup =>
      obtain ⟨_, hst⟩ := leaf_node_insert_ok _ _ _ _ _ _ heq
      subst hst
      have hnotin : row.id ∉ st.cells.map Prod.fst := by
        intro hmem
        obtain ⟨h1, h2⟩ := leaf_node_find_mem st row.id hsort hmem
        exact hdup ⟨h1, h2⟩
      refine ⟨insert_cell_sorted st row.id row hsort hnotin, ?_⟩
      intro c hc
      have hmem := (insert_cell_perm st (table_find st row.id) (row.id, row)).mem_iff.mp hc
      rcases List.mem_cons.mp hmem with rfl | hcc
      · exact hid
      · exact hlt c hcc

/-! ### `atoi` on non-numeric tokens -/

theorem atoi_of_nonNumeric (s : List Nat) (h : nonNumericToken s = true) :
    atoi s = 0 := by
  simp only [nonNumericToken] at h
  simp only [atoi]
  cases hd : s.dropWhile isSpaceByte with
  | nil => rfl
  | cons c rest =>
    rw [hd] at h
    show (if c = 45 then -(atoiLoop rest 0 : Int)
        else if c = 43 then (atoiLoop rest 0 : Int)
        else (atoiLoop (c :: rest) 0 : Int)) = 0
    by_cases hsign : c = 45 ∨ c = 43
    · have hrest : atoiLoop rest 0 = 0 := by
        cases rest with
        | nil => rfl
        | cons d ds =>
          have h2 : (if c = 45 ∨ c = 43 then ! isDigitByte d
              else ! isDigitByte c) = true := h
          rw [if_pos hsign] at h2
          have hd2 : isDigitByte d = false := by simpa using h2
          simp [atoiLoop, hd2]
      rcases hsign with rfl | rfl
      · simp [hrest]
      · simp [hrest]
    · have hd2 : isDigitByte c = false := by
        cases rest with
        | nil =>
          have h2 : (if c = 45 ∨ c = 43 then true else ! isDigitByte c) = true := h
          rw [if_neg hsign] at h2
          simpa using h2
        | cons d ds =>
          have h2 : (if c = 45 ∨ c = 43 then ! isDigitByte d
              else ! isDigitByte c) = true := h
          rw [if_neg hsign] at h2
          simpa using h2
      push_neg at hsign
      rw [if_neg hsign.1, if_neg hsign.2]
      simp [atoiLoop, hd2]

/-! ### The claims -/

/-- Claim C1, counterexample: the claim promises that a full scan after
inserting rows with distinct u32 ids returns them in ascending id order,
for ANY u32 ids. Inserting ids 1 then 65536 into a fresh database leaves
the scan in the order [65536, 1] — because `execute_insert` searches with
the id truncated to 16 bits (65536 ≡ 0), the second row is spliced in at
cell 0 — which is not the ascending order [1, 65536]. -/
theorem C1_counterexample :
    (insertAll db_open_fresh [mkRow 1, mkRow 65536]).map
        (fun st => (execute_select st).map Row.id) = some [65536, 1] ∧
    ([65536, 1] : List Nat) ≠ [1, 65536] := by decide

/-- Claim C1, amended: for at most `LEAF_NODE_MAX_CELLS` (= 13) rows with
pairwise distinct ids all below 65536, inserting them in any order into a
fresh database succeeds, and a full scan then yields exactly those rows
(as a permutation) in strictly ascending id order. -/
theorem C1_insert_scan_sorted (rs : List Row)
    (hnodup : (rs.map Row.id).Nodup)
    (hlt : ∀ r ∈ rs, r.id < 65536)
    (hlen : rs.length ≤ LEAF_NODE_MAX_CELLS) :
    ∃ st, insertAll db_open_fresh rs = some st ∧
      (execute_select st).Perm rs ∧
      (execute_select st).Pairwise (fun a b => a.id < b.id) := by
  have hG : GoodState db_open_fresh [] := by
    refine ⟨rfl, List.Pairwise.nil, ?_, ?_⟩ <;> simp [db_open_fresh]
  obtain ⟨st, hrun, hroot, hsort, hkeys, hperm⟩ :=
    insertAll_good rs db_open_fresh [] hG (by simpa using hlen)
      (by simpa using hnodup) hlt
  simp only [List.nil_append] at hperm
  refine ⟨st, hrun, ?_, ?_⟩
  · rw [execute_select_eq]
    have h1 := hperm.map Prod.snd
    have hcomp : (Prod.snd ∘ fun r : Row => (r.id, r)) = id := rfl
    rw [List.map_map, hcomp, List.map_id] at h1
    exact h1
  · rw [execute_select_eq, List.pairwise_map]
    refine List.Pairwise.imp_of_mem ?_ hsort
    intro a b ha hb hab
    rw [← (hkeys a ha).1, ← (hkeys b hb).1]
    exact hab

/-- Witness for C1: two rows inserted in descending id order come back
ascending. -/
theorem C1_insert_scan_sorted_witness :
    ∃ st, insertAll db_open_fresh [mkRow 2, mkRow 1] = some st ∧
      (execute_select st).Perm [mkRow 2, mkRow 1] ∧
      (execute_select st).Pairwise (fun a b => a.id < b.id) :=
  C1_insert_scan_sorted [mkRow 2, mkRow 1] (by decide) (by decide) (by decide)

/-- Claim C2: the claim (spec P5) promises that the 14th ascending insert
into a fresh database splits the root, leaving page 0 an internal node
with two leaf children. What the code does instead: `db_open` leaves page
0's `is_root` byte 0 (`initialize_leaf_node` sets it false and nothing
sets it true), so `leaf_node_split_and_insert` takes its non-root branch
and the process exits fatally with "Need to implement updating parent
after split." — no root split, no internal node. The first 13 inserts do
succeed. -/
theorem C2_fourteenth_insert_aborts :
    db_open_fresh.is_root = false ∧
    (insertAll db_open_fresh c2Rows).map (fun st => execute_insert st (mkRow 14)) =
      some (ExecResult.fatal Fatality.parent_split_unimplemented) := by decide

/-- Claim C3, counterexample: the claim says a row whose id is not present
is never rejected as a duplicate. In the reachable state holding only id
1, inserting id 65537 (≡ 1 mod 2^16, not present) is rejected as a
duplicate, because the duplicate comparison uses the id truncated to
`uint16_t`. -/
theorem C3_counterexample :
    insertAll db_open_fresh [mkRow 1] = some ⟨false, [(1, mkRow 1)]⟩ ∧
    execute_insert ⟨false, [(1, mkRow 1)]⟩ (mkRow 65537) =
      ExecResult.ok ExecuteResult.duplicate_key ⟨false, [(1, mkRow 1)]⟩ ∧
    (65537 : Nat) ∉ (Leaf.mk false [(1, mkRow 1)]).cells.map Prod.fst := by decide

/-- Claim C3, amended: restricted to ids below 2^16 (where the `uint16_t`
truncation is the identity), duplicate handling is exact: in any state
reachable by such inserts, inserting an id already stored returns
`duplicate_key` with the state unchanged, and an id not stored is never
rejected as a duplicate. -/
theorem C3_duplicate_detection (st : Leaf) (h : ReachableLT st) (row : Row)
    (hid : row.id < 65536) :
    (row.id ∈ st.cells.map Prod.fst →
      execute_insert st row = ExecResult.ok ExecuteResult.duplicate_key st) ∧
    (row.id ∉ st.cells.map Prod.fst →
      ∀ st', execute_insert st row ≠ ExecResult.ok ExecuteResult.duplicate_key st') := by
  obtain ⟨hsort, _⟩ := reachableLT_inv st h
  have hmod : row.id % 65536 = row.id := Nat.mod_eq_of_lt hid
  constructor
  · intro hmem
    obtain ⟨h1, h2⟩ := leaf_node_find_mem st row.id hsort hmem
    rw [execute_insert_eq, hmod, if_pos ⟨h1, h2⟩]
  · intro hmem st' hc
    rw [execute_insert_eq, hmod] at hc
    split at hc
    · next hdup =>
      have hgt := leaf_node_find_not_mem st row.id hsort hmem
        (table_find st row.id) (Nat.le_refl _) hdup.1
      have := hdup.2
      omega
    · obtain ⟨hr, _⟩ := leaf_node_insert_ok _ _ _ _ _ _ hc
      exact ExecuteResult.noConfusion hr

/-- Witness for C3: in the fresh (empty) database, id 1 is absent and is
not rejected as a duplicate. -/
theorem C3_duplicate_detection_witness :
    ((mkRow 1).id ∈ db_open_fresh.cells.map Prod.fst →
      execute_insert db_open_fresh (mkRow 1) =
        ExecResult.ok ExecuteResult.duplicate_key db_open_fresh) ∧
    ((mkRow 1).id ∉ db_open_fresh.cells.map Prod.fst →
      ∀ st', execute_insert db_open_fresh (mkRow 1) ≠
        ExecResult.ok ExecuteResult.duplicate_key st') :=
  C3_duplicate_detection db_open_fresh ReachableLT.open_fresh (mkRow 1) (by decide)

/-- Claim C4: the claim states the documented layout (leaf `num_cells` at
bytes 6–9, leaf cells from byte 10, internal cells from byte 14, internal
key at cell offset 4). The code disagrees on all four counts:
`COMMON_NODE_HEADER_SIZE` is computed with `PARENT_POINTER_OFFSET` (2) in
place of `PARENT_POINTER_SIZE` (4), giving 4 instead of 6 — so `num_cells`
sits at bytes 4–7, leaf cells start at byte 8 and internal cells at byte
12 — and `internal_node_key` adds `INTERNAL_NODE_CHILD_SIZE` to a
`uint32_t*`, landing the key at cell offset 16 (byte 28 for key 0) instead
of 4. The common-header field offsets (type 0, is_root 1, parent 2–5) and
the strides (297, 8) are as claimed. -/
theorem C4_layout_offsets :
    NODE_TYPE_OFFSET = 0 ∧ IS_ROOT_OFFSET = 1 ∧
    PARENT_POINTER_OFFSET = 2 ∧ PARENT_POINTER_SIZE = 4 ∧
    COMMON_NODE_HEADER_SIZE = 4 ∧
    LEAF_NODE_NUM_CELLS_OFFSET = 4 ∧ LEAF_NODE_NUM_CELLS_OFFSET ≠ 6 ∧
    LEAF_NODE_HEADER_SIZE = 8 ∧ leaf_node_cell_off 0 = 8 ∧ leaf_node_cell_off 0 ≠ 10 ∧
    LEAF_NODE_CELL_SIZE = 297 ∧
    INTERNAL_NODE_HEADER_SIZE = 12 ∧ internal_node_cell_off 0 = 12 ∧
    internal_node_cell_off 0 ≠ 14 ∧ INTERNAL_NODE_CELL_SIZE = 8 ∧
    internal_node_key_off 0 = 28 ∧
    internal_node_key_off 0 ≠ internal_node_cell_off 0 + INTERNAL_NODE_CHILD_SIZE := by
  decide

/-- Claim C5: the claim says page 0's `is_root` byte is 1 in every
reachable state. In fact it is 0 right after `db_open` on an empty file
(`initialize_leaf_node` sets it false and `db_open` never sets it true),
and it stays 0 in every state reachable by inserts — the code never marks
any node as root. -/
theorem C5_is_root_never_set :
    db_open_fresh.is_root = false ∧ ∀ st, Reachable st → st.is_root = false := by
  refine ⟨rfl, ?_⟩
  intro st h
  induction h with
  | open_fresh => rfl
  | insert st st' row r _ heq ih =>
    rw [execute_insert_is_root st st' row r heq]
    exact ih

/-- Witness for C5: the fresh state itself. -/
theorem C5_is_root_never_set_witness : db_open_fresh.is_root = false :=
  C5_is_root_never_set.2 db_open_fresh Reachable.open_fresh

/-- Claim C6: for every valid row (u32 id, null-terminated strings inside
their 33- and 256-byte fields), `deserialize_row` inverts `serialize_row`. -/
theorem C6_row_roundtrip (r : Row) (h : r.Valid) :
    deserialize_row (serialize_row r) = r := by
  obtain ⟨id, u, e⟩ := r
  obtain ⟨hid, hu, he, -, -, -, -⟩ := h
  have hid' : id < 4294967296 := hid
  have hu' : u.length = 33 := hu
  have he' : e.length = 256 := he
  have hlen4 : (serialize_id id).length = 4 := rfl
  have hlen37 : (serialize_id id ++ u).length = 37 := by
    rw [List.length_append, hlen4, hu']
  show deserialize_row (serialize_id id ++ u ++ e) = ⟨id, u, e⟩
  have hdrop4 : (serialize_id id ++ u ++ e).drop 4 = u ++ e := by
    rw [List.append_assoc]
    exact List.drop_left' hlen4
  have hdrop37 : (serialize_id id ++ u ++ e).drop 37 = e := List.drop_left' hlen37
  simp only [deserialize_row, Row.mk.injEq]
  refine ⟨?_, ?_, ?_⟩
  · have h0 : (serialize_id id ++ u ++ e).getD 0 0 = id % 256 := rfl
    have h1 : (serialize_id id ++ u ++ e).getD 1 0 = id / 256 % 256 := rfl
    have h2 : (serialize_id id ++ u ++ e).getD 2 0 = id / 65536 % 256 := rfl
    have h3 : (serialize_id id ++ u ++ e).getD 3 0 = id / 16777216 % 256 := rfl
    rw [h0, h1, h2, h3]
    omega
  · show ((serialize_id id ++ u ++ e).drop USERNAME_OFFSET).take USERNAME_SIZE = u
    rw [show USERNAME_OFFSET = 4 from rfl, show USERNAME_SIZE = 33 from rfl, hdrop4]
    exact List.take_left' hu'
  · show ((serialize_id id ++ u ++ e).drop EMAIL_OFFSET).take EMAIL_SIZE = e
    rw [show EMAIL_OFFSET = 37 from rfl, show EMAIL_SIZE = 256 from rfl, hdrop37, ← he']
    exact List.take_length e

set_option maxRecDepth 10000 in
/-- Witness for C6: a concrete valid row survives the round trip. -/
theorem C6_row_roundtrip_witness :
    deserialize_row (serialize_row c6Row) = c6Row :=
  C6_row_roundtrip c6Row (by decide)

/-- Claim C7, counterexample: the claim says the buffer installed for a
page beyond end-of-file is entirely zero-filled. The code calls
`malloc(PAGE_SIZE)` and never zeroes the buffer, so the installed page
holds whatever the allocator returned: with allocator contents all-1 and a
zero-length file, page 0's byte 0 reads 1, not 0. -/
theorem C7_counterexample :
    get_page_miss_buffer [] (fun _ => 1) 0 0 = 1 ∧
    ¬ (∀ i, i < PAGE_SIZE → get_page_miss_buffer [] (fun _ => 1) 0 i = 0) := by
  refine ⟨rfl, fun hall => ?_⟩
  exact absurd (hall 0 (by decide)) (by decide)

/-- Claim C7, amended: for a page lying entirely at or beyond end-of-file,
the buffer the cache-miss path installs is exactly the (indeterminate)
malloc contents — `get_page` performs no zeroing, so such a page is
zero-filled only if the allocator happens to return zeroed memory. -/
theorem C7_miss_buffer_is_malloc (file : List Nat) (m : Nat → Nat) (page_num : Nat)
    (h : file.length ≤ page_num * PAGE_SIZE) :
    get_page_miss_buffer file m page_num = m := by
  unfold get_page_miss_buffer
  split
  · funext i
    rw [if_neg (by omega)]
  · rfl

/-- Witness for C7: on a zero-length file, page 0's installed buffer is
the raw allocation. -/
theorem C7_miss_buffer_is_malloc_witness :
    get_page_miss_buffer [] (fun _ => 5) 0 = (fun _ => 5) :=
  C7_miss_buffer_is_malloc [] (fun _ => 5) 0 (by decide)

/-- Claim C8: the claim says `get_page` aborts for every
`page_num ≥ TABLE_MAX_PAGES` (= 100) and so never indexes the page-slot
array out of `[0, 100)`. The guard in the code is
`page_num > TABLE_MAX_PAGES`, so `page_num = 100` passes it (the guard
admits exactly `page_num ≤ 100`) and `get_page` proceeds to index
`pager->pages[100]`, one past the end of the 100-slot array. -/
theorem C8_bound_check_off_by_one :
    get_page_guard_aborts 100 = false ∧
    TABLE_MAX_PAGES = 100 ∧
    ∀ page_num, get_page_guard_aborts page_num = false ↔ page_num ≤ TABLE_MAX_PAGES := by
  refine ⟨by decide, by decide, ?_⟩
  intro page_num
  simp only [get_page_guard_aborts, decide_eq_false_iff_not, Nat.not_lt]

/-- Claim C9: `execute_insert` narrows the row id to `uint16_t` before the
search and the duplicate comparison, while `leaf_node_insert` stores the
untruncated id: rows whose ids agree mod 2^16 get the same cursor and the
same duplicate verdict, and a successful insert splices in the full
32-bit id at the cursor obtained from the truncated one. -/
theorem C9_key_truncation (st : Leaf) (r1 r2 : Row)
    (h : r1.id % 65536 = r2.id % 65536) :
    table_find st (r1.id % 65536) = table_find st (r2.id % 65536) ∧
    (∀ st', execute_insert st r1 = ExecResult.ok ExecuteResult.duplicate_key st' ↔
            execute_insert st r2 = ExecResult.ok ExecuteResult.duplicate_key st') ∧
    (∀ st', execute_insert st r1 = ExecResult.ok ExecuteResult.success st' →
      st'.cells = st.cells.take (table_find st (r1.id % 65536)) ++
        (r1.id, r1) :: st.cells.drop (table_find st (r1.id % 65536))) := by
  refine ⟨by rw [h], ?_, ?_⟩
  · intro st'
    rw [execute_insert_eq, execute_insert_eq, h]
    split
    · exact Iff.rfl
    · constructor
      · intro hc
        obtain ⟨hr, -⟩ := leaf_node_insert_ok _ _ _ _ _ _ hc
        exact ExecuteResult.noConfusion hr
      · intro hc
        obtain ⟨hr, -⟩ := leaf_node_insert_ok _ _ _ _ _ _ hc
        exact ExecuteResult.noConfusion hr
  · intro st' hc
    rw [execute_insert_eq] at hc
    split at hc
    · simp at hc
    · obtain ⟨-, hst⟩ := leaf_node_insert_ok _ _ _ _ _ _ hc
      rw [hst]

/-- Witness for C9: ids 65537 and 1 are congruent mod 2^16 and get the
same cursor and duplicate verdict on the fresh database; inserting 65537
stores the full id 65537. -/
theorem C9_key_truncation_witness :
    table_find db_open_fresh ((mkRow 65537).id % 65536) =
      table_find db_open_fresh ((mkRow 1).id % 65536) ∧
    (∀ st', execute_insert db_open_fresh (mkRow 65537) =
        ExecResult.ok ExecuteResult.duplicate_key st' ↔
      execute_insert db_open_fresh (mkRow 1) =
        ExecResult.ok ExecuteResult.duplicate_key st') ∧
    (∀ st', execute_insert db_open_fresh (mkRow 65537) =
        ExecResult.ok ExecuteResult.success st' →
      st'.cells = db_open_fresh.cells.take
          (table_find db_open_fresh ((mkRow 65537).id % 65536)) ++
        ((mkRow 65537).id, mkRow 65537) :: db_open_fresh.cells.drop
          (table_find db_open_fresh ((mkRow 65537).id % 65536))) :=
  C9_key_truncation db_open_fresh (mkRow 65537) (mkRow 1) (by decide)

/-- Claim C10: an insert whose id token is non-numeric (and whose strings
fit) is accepted: C `atoi` maps such a token to 0, `prepare_insert` only
rejects strictly negative ids, so it returns `PREPARE_SUCCESS` with row
id 0. -/
theorem C10_non_numeric_id (ids un em : List Nat)
    (h : nonNumericToken ids = true)
    (hun : un.length ≤ COLUMN_USERNAME_SIZE)
    (hem : em.length ≤ COLUMN_EMAIL_SIZE) :
    prepare_insert (some ids) (some un) (some em) =
      PrepareResult.success 0 un em := by
  show (if atoi ids < 0 then PrepareResult.negative_id
      else if COLUMN_USERNAME_SIZE < un.length then PrepareResult.string_too_long
      else if COLUMN_EMAIL_SIZE < em.length then PrepareResult.string_too_long
      else PrepareResult.success (atoi ids).toNat un em) =
    PrepareResult.success 0 un em
  rw [atoi_of_nonNumeric ids h]
  rw [if_neg (by decide : ¬((0 : Int) < 0))]
  rw [if_neg (Nat.not_lt.mpr hun), if_neg (Nat.not_lt.mpr hem)]
  rfl

/-- Witness for C10: the token "abc" (bytes 97 98 99) yields
`PREPARE_SUCCESS` with id 0. -/
theorem C10_non_numeric_id_witness :
    prepare_insert (some [97, 98, 99]) (some [97]) (some [98]) =
      PrepareResult.success 0 [97] [98] :=
  C10_non_numeric_id [97, 98, 99] [97] [98] (by decide) (by decide) (by decide)

end MyBase
